import Mathlib

/-!
Verification development for the semantic diff summarizer
(`scripts/parse_diff_summary.py`).

The Python source is shallowly embedded below: every definition mirrors a
function (or an inline code block) of the source file, operating on
`String` / `List Char` / `List String` and `Nat` exactly where the Python
operates on `str` / `list[str]` / `int`.  Regular expressions of the source
are expanded into explicit character-level scanners with the same
leftmost-match / greedy-backtracking semantics.  `str.lower()` is modelled
on the ASCII range (all pattern literals that are compared are ASCII).
-/

set_option maxRecDepth 8000

namespace DiffSummary

/-- Whitespace class used by Python `str.strip()` and the `\s` regex class
(ASCII range). -/
def isSpc (c : Char) : Bool :=
  c = ' ' || c = '\t' || c = '\n' || c = '\r' || c = Char.ofNat 11 || c = Char.ofNat 12

/-- ASCII lowercasing, modelling `str.lower()` on the characters that the
source ever compares. -/
def lowChar (c : Char) : Char := c.toLower

/-- Lowercase a string (`.lower()`). -/
def lowerStr (s : String) : String := (s.toList.map lowChar).asString

/-- `leadsWith pat l` is true when `pat` is an initial segment of `l`. -/
def leadsWith : List Char → List Char → Bool
  | [], _ => true
  | _ :: _, [] => false
  | p :: ps, c :: cs => p = c && leadsWith ps cs

/-- `hasSub pat l` models Python `pat in l`: `pat` occurs contiguously in `l`. -/
def hasSub (pat : List Char) : List Char → Bool
  | [] => pat.isEmpty
  | c :: cs => leadsWith pat (c :: cs) || hasSub pat cs

/-- String-level substring containment (Python `in`). -/
def hasSubS (pat s : String) : Bool := hasSub pat.toList s.toList

/-- Python `' '.join(lines)`. -/
def joinSp (lines : List String) : String := String.intercalate " " lines

/-- Python `str.strip()` on a character list. -/
def trimCl (l : List Char) : List Char :=
  ((l.dropWhile isSpc).reverse.dropWhile isSpc).reverse

/-- Python `str.strip()`. -/
def trimS (s : String) : String := (trimCl s.toList).asString

/-- Python `str.lstrip(' ')` (spaces only). -/
def lstripSp (s : String) : String := (s.toList.dropWhile (· = ' ')).asString

/-- Python `s.startswith(pre)` (character-level, kernel-reducible). -/
def startsWithS (pre s : String) : Bool := leadsWith pre.toList s.toList

/-- Python `s[n:]`. -/
def dropS (n : Nat) (s : String) : String := (s.toList.drop n).asString

/-- `HTMLStructureDetector.detect_element_type`: priority-ordered substring
tests on the lowercased space-joined lines. -/
def detect_element_type (lines : List String) : String :=
  let combined := lowerStr (joinSp lines)
  if hasSubS "<tr>" combined || hasSubS "<td>" combined then "table_row"
  else if hasSubS "<li>" combined then "list_item"
  else if hasSubS "<h1" combined || hasSubS "<h2" combined || hasSubS "<h3" combined then
    "heading"
  else if hasSubS "<p>" combined || hasSubS "<p " combined then "paragraph"
  else if hasSubS "<div class=\"admonition" combined then "admonition"
  else if hasSubS "class=\"md-nav" combined then "navigation"
  else if hasSubS "<a" combined && hasSubS "href=" combined then "link"
  else "content"

/-- The fixed localized prefixes of `_classify_change_type`
(the source file stores the labels in a mojibake encoding; the literals
below reproduce the file's characters exactly). -/
def classifyPrefixStr (isDeletion : Bool) : String :=
  if isDeletion then "ÂâäÈô§: " else "ËøΩÂä†: "

/-- `SemanticChangeDetector._classify_change_type`: localized labels; the
admonition warning/note substring tests come before the element-type
dispatch. -/
def classify_change_type (elementType : String) (lines : List String)
    (isDeletion : Bool) : String :=
  let combined := lowerStr (joinSp lines)
  let pre := classifyPrefixStr isDeletion
  if hasSubS "admonition warning" combined ||
      hasSubS "class=\"admonition warning" combined then pre ++ "Warning"
  else if hasSubS "admonition note" combined then pre ++ "Note"
  else if elementType = "table_row" then pre ++ "„ÉÜ„Éº„Éñ„É´Ë°å"
  else if elementType = "list_item" then pre ++ "„É™„Çπ„ÉàÈ†ÖÁõÆ"
  else if elementType = "heading" then
    if isDeletion then "Ë¶ãÂá∫„ÅóÂ§âÊõ¥ÔºàÊóßÔºâ" else "Ë¶ãÂá∫„ÅóÂ§âÊõ¥ÔºàÊñ∞Ôºâ"
  else if elementType = "navigation" then pre ++ "„Éä„Éì„Ç≤„Éº„Ç∑„Éß„É≥"
  else if elementType = "paragraph" then pre ++ "ÊÆµËêΩ"
  else if elementType = "admonition" then pre ++ "Ê≥®ÊÑèÊõ∏„Åç"
  else pre ++ "„Ç≥„É≥„ÉÜ„É≥„ÉÑ"

/-- Tag names of the boundary-detector whitelist `(tr|li|p|div|h[1-6])`. -/
def boundaryTags : List (List Char) :=
  [['t', 'r'], ['l', 'i'], ['p'], ['d', 'i', 'v'],
   ['h', '1'], ['h', '2'], ['h', '3'], ['h', '4'], ['h', '5'], ['h', '6']]

/-- Try to read one whitelisted tag name followed by `[\s>]` at the head of
`r` (the part of the regex `<(tr|li|p|div|h[1-6])[\s>]` after the `<`). -/
def tryOpenTagAt (r : List Char) : Option (List Char) :=
  boundaryTags.findSome? fun t =>
    if leadsWith t r then
      match r.drop t.length with
      | c :: _ => if isSpc c || c = '>' then some t else none
      | [] => none
    else none

/-- Leftmost match of `<(tr|li|p|div|h[1-6])[\s>]` (the tag name captured). -/
def findOpenTag : List Char → Option (List Char)
  | [] => none
  | c :: rest =>
    if c = '<' then
      match tryOpenTagAt rest with
      | some t => some t
      | none => findOpenTag rest
    else findOpenTag rest

/-- Try to read one whitelisted closing tag `/(tr|li|p|div|h[1-6])>` at the
head of `r` (after the `<`). -/
def tryCloseTagAt (r : List Char) : Option (List Char) :=
  match r with
  | '/' :: r2 =>
    boundaryTags.findSome? fun t =>
      if leadsWith t r2 then
        match r2.drop t.length with
        | '>' :: _ => some t
        | _ => none
      else none
  | _ => none

/-- Leftmost match of `</(tr|li|p|div|h[1-6])>` (the tag name captured). -/
def findCloseTag : List Char → Option (List Char)
  | [] => none
  | c :: rest =>
    if c = '<' then
      match tryCloseTagAt rest with
      | some t => some t
      | none => findCloseTag rest
    else findCloseTag rest

/-- Python truthiness test `not current_start`: `None` and `0` are falsy. -/
def curFalsy : Option Nat → Bool
  | none => true
  | some 0 => true
  | some (_ + 1) => false

/-- The `current_start` update on an opening tag: `if not current_start:`
(Python falsy test) resets the start to `i`. -/
def febUpd (i : Nat) (opened : Option (List Char)) (cur : Option Nat) : Option Nat :=
  match opened with
  | some _ => if curFalsy cur then some i else cur
  | none => cur

/-- The stack push on an opening tag. -/
def febPush (opened : Option (List Char)) (stk : List (List Char)) : List (List Char) :=
  match opened with
  | some t => t :: stk
  | none => stk

/-- The closing-tag handling: pop when the closing tag equals the stack
top; when the stack empties and a start is set, emit the range
`(current_start, i+1)` and clear the start. -/
def febClose (i : Nat) (closed : Option (List Char)) (cur1 : Option Nat)
    (stk1 : List (List Char)) (acc : List (Nat × Nat)) :
    Option Nat × List (List Char) × List (Nat × Nat) :=
  match closed, stk1 with
  | some t, top :: stkRest =>
    if top = t then
      if stkRest.isEmpty then
        match cur1 with
        | some s => (none, stkRest, acc ++ [(s, i + 1)])
        | none => (none, stkRest, acc)
      else (cur1, stkRest, acc)
    else (cur1, top :: stkRest, acc)
  | _, _ => (cur1, stk1, acc)

/-- One iteration of the `find_element_boundaries` loop body for line index
`i`: state is `(current_start, stack, boundaries)`. -/
def febStep (i : Nat) (line : String)
    (st : Option Nat × List (List Char) × List (Nat × Nat)) :
    Option Nat × List (List Char) × List (Nat × Nat) :=
  febClose i (findCloseTag (trimCl line.toList))
    (febUpd i (findOpenTag (trimCl line.toList)) st.1)
    (febPush (findOpenTag (trimCl line.toList)) st.2.1) st.2.2

/-- The indexed loop of `find_element_boundaries`. -/
def febLoop : Nat → List String →
    (Option Nat × List (List Char) × List (Nat × Nat)) →
    Option Nat × List (Nat × Nat)
  | _, [], st => (st.1, st.2.2)
  | i, l :: rest, st => febLoop (i + 1) rest (febStep i l st)

/-- Post-processing of the boundary loop: when no boundaries were found at
all on a non-empty line list, the whole block is one element. -/
def febFallback (len : Nat) (linesEmpty : Bool) (acc : List (Nat × Nat)) :
    List (Nat × Nat) :=
  if acc.isEmpty && !linesEmpty then [(0, len)] else acc

/-- Post-processing of the boundary loop: an unclosed element becomes a
final range spanning to the end. -/
def febFinish (len : Nat) (linesEmpty : Bool) (r : Option Nat × List (Nat × Nat)) :
    List (Nat × Nat) :=
  febFallback len linesEmpty
    (match r.1 with
     | some s => r.2 ++ [(s, len)]
     | none => r.2)

/-- `HTMLStructureDetector.find_element_boundaries`. -/
def find_element_boundaries (lines : List String) : List (Nat × Nat) :=
  febFinish lines.length lines.isEmpty (febLoop 0 lines (none, [], []))

example : find_element_boundaries ["<div>", "<p>", "</p>", "</div>"] = [(1, 4)] := by decide
example : find_element_boundaries ["x", "<p>a</p>", "y"] = [(1, 2)] := by decide
example : find_element_boundaries ["no tags here"] = [(0, 1)] := by decide
example : detect_element_type ["<TR> x"] = "table_row" := by decide
example : detect_element_type ["<a href=\"u\">t</a>"] = "link" := by decide

/-- State machine for `re.sub(r'<[^>]+>', '', line)`: `pend` holds, in
reverse, the characters since an as-yet-unclosed `<` (`none` when outside a
candidate match).  A `>` with a non-empty body removes the whole `<…>`
span; `<>` (empty body) is not a match and is emitted verbatim. -/
def stripTagsAux : List Char → Option (List Char) → List Char
  | [], none => []
  | [], some pend => pend.reverse
  | c :: rest, none =>
    if c = '<' then stripTagsAux rest (some ['<'])
    else c :: stripTagsAux rest none
  | c :: rest, some pend =>
    if c = '>' then
      match pend with
      | ['<'] => '<' :: '>' :: stripTagsAux rest none
      | _ => stripTagsAux rest none
    else stripTagsAux rest (some (c :: pend))

/-- Python `re.sub(r'<[^>]+>', '', line)` on a character list. -/
def stripTagsCl (l : List Char) : List Char := stripTagsAux l none

/-- Tag removal on strings. -/
def stripTagsS (s : String) : String := (stripTagsCl s.toList).asString

/-- Body check for `re.match(r'^\s*</?[^>]+>\s*$', line)` after the `<`:
one or more non-`>` characters, a `>`, then only whitespace to the end. -/
def pureTagBody (r : List Char) : Bool :=
  let body := r.takeWhile (· ≠ '>')
  match r.dropWhile (· ≠ '>') with
  | _ :: tail => !body.isEmpty && tail.all isSpc
  | [] => false

/-- `re.match(r'^\s*</?[^>]+>\s*$', line)`: a line that is one pure
structural tag.  (The optional `/` branch is subsumed: a match consuming
the `/` is also a match with the `/` inside `[^>]+`.) -/
def pureTagLine (s : String) : Bool :=
  match (s.toList.dropWhile isSpc) with
  | '<' :: r =>
    (match r with
     | '/' :: r2 => pureTagBody r2 || pureTagBody r
     | _ => pureTagBody r)
  | _ => false

/-- Whitespace-run collapse `re.sub(r'\s+', ' ', s)`: `inRun` records that
the previous character belonged to a whitespace run already emitted. -/
def collapseWsAux : List Char → Bool → List Char
  | [], _ => []
  | c :: rest, inRun =>
    if isSpc c then
      if inRun then collapseWsAux rest true
      else ' ' :: collapseWsAux rest true
    else c :: collapseWsAux rest false

/-- `re.sub(r'\s+', ' ', s)` on a character list. -/
def collapseWsCl (l : List Char) : List Char := collapseWsAux l false

/-- `SemanticChangeDetector._extract_preview_text` (default `max_length`
150): skip pure structural-tag lines, strip tags of the rest, keep texts
longer than 3 characters, join with spaces, collapse whitespace, strip,
truncate at `maxLength` with an appended `"..."`. -/
def extract_preview_text (lines : List String) (maxLength : Nat := 150) : String :=
  let textParts := lines.filterMap fun line =>
    if pureTagLine line then none
    else
      let text := trimCl (stripTagsCl line.toList)
      if 3 < text.length then some text.asString else none
  let preview := trimCl (collapseWsCl (joinSp textParts).toList)
  if maxLength < preview.length then (preview.take maxLength ++ "...".toList).asString
  else preview.asString

example : extract_preview_text ["<td>Hello world</td>"] = "Hello world" := by decide
example : extract_preview_text ["  </div>  "] = "" := by decide
example : (extract_preview_text [(List.replicate 200 'a').asString]).length = 153 := by decide

/-- Attempt of the sub-pattern `id=["\']([^"\']+)["\']` followed by
`[^>]*>` at the head of `r`; returns the captured identifier. -/
def tryIdHere (r : List Char) : Option (List Char) :=
  match r with
  | 'i' :: 'd' :: '=' :: q :: rest =>
    if q = '"' || q = Char.ofNat 39 then
      let idc := rest.takeWhile fun c => c ≠ '"' && c ≠ Char.ofNat 39
      match rest.dropWhile (fun c => c ≠ '"' && c ≠ Char.ofNat 39) with
      | _ :: tail =>
        if !idc.isEmpty && tail.any (· = '>') then some idc else none
      | [] => none
    else none
  | _ => none

/-- Greedy scan for `[^>]*id=…` after `<h[2-4]`: the gap `[^>]*` is
greedy, so the rightmost `id=` candidate before the first `>` is tried
first (later positions preferred, stop at `>`). -/
def idScan : List Char → Option (List Char)
  | [] => none
  | c :: rest =>
    if c = '>' then none
    else
      match idScan rest with
      | some a => some a
      | none => tryIdHere (c :: rest)

/-- Attempt of `h([2-4])` plus the id scan, at the position after a `<`. -/
def tryHeadingAt (r : List Char) : Option (List Char) :=
  match r with
  | 'h' :: d :: rest =>
    if d = '2' || d = '3' || d = '4' then idScan rest else none
  | _ => none

/-- Leftmost match of `<h([2-4])[^>]*id=["\']([^"\']+)["\'][^>]*>`,
returning the captured identifier (group 2). -/
def headingIdMatch : List Char → Option (List Char)
  | [] => none
  | c :: rest =>
    if c = '<' then
      match tryHeadingAt rest with
      | some a => some a
      | none => headingIdMatch rest
    else headingIdMatch rest

example : headingIdMatch "<h3 class=\"x\" id=\"pricing\">".toList = some "pricing".toList := by
  decide
example : headingIdMatch "<h5 id=\"x\">".toList = none := by decide

/-- Python `range(s, t, -1)` for `t ≥ 0`: the indices `s, s-1, …, t+1`. -/
def downRange : Nat → Nat → List Nat
  | 0, _ => []
  | s + 1, t => if t < s + 1 then (s + 1) :: downRange s t else []

/-- The index sequence of the backward scan in `get_section_info`:
`range(min(line_number-1, len-1), max(0, line_number-500), -1)`. -/
def scanIdxList (lineNumber len : Nat) : List Nat :=
  if len = 0 then [] else downRange (min (lineNumber - 1) (len - 1)) (lineNumber - 500)

/-- One probe of the backward scan at snapshot index `i`: an `h2`–`h4`
heading with an id whose following line has non-empty tag-stripped text
yields `(heading text, anchor)`. -/
def sectionAt (snap : List String) (i : Nat) : Option (String × String) :=
  match headingIdMatch (snap.getD i "").toList with
  | some anchor =>
    if i + 1 < snap.length then
      let t := trimS (stripTagsS (snap.getD (i + 1) ""))
      if t ≠ "" then some (t, anchor.asString) else none
    else none
  | none => none

/-- The fixed unknown-section sentinel (the source file's characters,
reproduced exactly). -/
def unknownSection : String := "‰∏çÊòé„Å™„Çª„ÇØ„Ç∑„Éß„É≥"

/-- `SemanticChangeDetector.get_section_info`: backward scan through the
snapshot lines for the nearest heading with an id. -/
def get_section_info (snap : List String) (lineNumber : Nat) : String × String :=
  match (scanIdxList lineNumber snap.length).findSome? (sectionAt snap) with
  | some r => r
  | none => (unknownSection, "")

example :
    get_section_info ["junk", "<h2 id=\"x\">", "Title"] 2 = ("Title", "x") := by decide
example : get_section_info ["a", "b"] 2 = (unknownSection, "") := by decide

/-- The `Change` dataclass of the source (field order preserved;
`detail` defaults to the empty string). -/
structure Change where
  «section» : String
  type : String
  line : Nat
  preview : String
  additions : Nat
  deletions : Nat
  anchor : String
  detail : String := ""
  html_element : String := ""
deriving DecidableEq, Repr

/-- Pairing test of `_merge_related_changes`: the next record has the same
`html_element` and `section`, the current one has `additions > 0` and the
next one `deletions > 0`. -/
def pairCond (cur next : Change) : Bool :=
  next.html_element = cur.html_element && next.«section» = cur.«section» &&
    0 < cur.additions && 0 < next.deletions

/-- The merged record built by `_merge_related_changes` from the current
(addition-side) and next (deletion-side) records. -/
def mergeChange (cur next : Change) : Change :=
  { «section» := cur.«section»
    type := "Â§âÊõ¥: " ++ cur.html_element
    line := cur.line
    preview := "[Êóß] " ++ next.preview ++ " ‚Üí [Êñ∞] " ++ cur.preview
    additions := cur.additions
    deletions := next.deletions
    anchor := cur.anchor
    html_element := cur.html_element }

/-- `SemanticChangeDetector._merge_related_changes`: single greedy pass,
merging an adjacent pair when `pairCond` holds and advancing by two. -/
def mergeRelatedChanges : List Change → List Change
  | [] => []
  | [c] => [c]
  | c1 :: c2 :: rest =>
    if pairCond c1 c2 then mergeChange c1 c2 :: mergeRelatedChanges rest
    else c1 :: mergeRelatedChanges (c2 :: rest)

/-- Python slice `lines[start:end]`. -/
def slice (lines : List String) (s e : Nat) : List String :=
  (lines.drop s).take (e - s)

/-- The per-side record construction of `split_chunk_into_changes`
(the added and removed blocks of the source are textually identical up to
`is_deletion` and the additions/deletions swap, factored here through
`isDeletion`). -/
def chunkSideChanges (snap : List String) (chunkStartLine : Nat) (inTableRow : Bool)
    (lines : List String) (isDeletion : Bool) : List Change :=
  if lines.isEmpty then []
  else
    (find_element_boundaries lines).map fun se =>
      let elementLines := slice lines se.1 se.2
      let et0 := detect_element_type elementLines
      -- override only inside a table row, for generic content without
      -- `<tr>`, `<p>`, `<div` in the joined element text
      let et :=
        if inTableRow && et0 = "content" &&
            !hasSubS "<tr>" (joinSp elementLines) &&
            !hasSubS "<p>" (joinSp elementLines) &&
            !hasSubS "<div" (joinSp elementLines) then "table_row"
        else et0
      let si := get_section_info snap chunkStartLine
      { «section» := si.1
        type := classify_change_type et elementLines isDeletion
        line := chunkStartLine
        preview := extract_preview_text elementLines
        additions := if isDeletion then 0 else elementLines.length
        deletions := if isDeletion then elementLines.length else 0
        anchor := si.2
        html_element := et }

/-- The raw (pre-merge) record list of `split_chunk_into_changes`:
addition-side records in boundary order, then deletion-side records. -/
def splitChunkRaw (snap : List String) (chunkStartLine : Nat)
    (addedLines removedLines contextLines : List String) : List Change :=
  let recent :=
    if 5 < contextLines.length then contextLines.drop (contextLines.length - 5)
    else contextLines
  let inTableRow := recent.any fun l => hasSubS "<tr>" l || hasSubS "<td>" l
  chunkSideChanges snap chunkStartLine inTableRow addedLines false ++
    chunkSideChanges snap chunkStartLine inTableRow removedLines true

/-- `SemanticChangeDetector.split_chunk_into_changes`. -/
def split_chunk_into_changes (snap : List String) (chunkStartLine : Nat)
    (addedLines removedLines contextLines : List String) : List Change :=
  mergeRelatedChanges (splitChunkRaw snap chunkStartLine addedLines removedLines contextLines)

/-- Digit-prefix split used by the hunk-header parse. -/
def digitsSpan (l : List Char) : List Char × List Char :=
  (l.takeWhile Char.isDigit, l.dropWhile Char.isDigit)

/-- Numeric value of a digit list (`int(...)` on the captured group). -/
def natOfDigits (l : List Char) : Nat :=
  l.foldl (fun n c => n * 10 + (c.toNat - 48)) 0

/-- `re.match(r'^@@ -(\d+),?\d* \+(\d+),?\d* @@', line)`: the two captured
start line numbers, or `none` when the anchored pattern fails. -/
def chunkHeader (l : String) : Option (Nat × Nat) :=
  match l.toList with
  | '@' :: '@' :: ' ' :: '-' :: r =>
    let p1 := digitsSpan r
    if p1.1.isEmpty then none
    else
      let r2 := match p1.2 with
        | ',' :: t => t.dropWhile Char.isDigit
        | other => other
      match r2 with
      | ' ' :: '+' :: r3 =>
        let p2 := digitsSpan r3
        if p2.1.isEmpty then none
        else
          let r5 := match p2.2 with
            | ',' :: t => t.dropWhile Char.isDigit
            | other => other
          match r5 with
          | ' ' :: '@' :: '@' :: _ => some (natOfDigits p1.1, natOfDigits p2.1)
          | _ => none
      | _ => none
  | _ => none

example : chunkHeader "@@ -12,3 +45,6 @@ ctx" = some (12, 45) := by decide
example : chunkHeader "@@ -7 +9 @@" = some (7, 9) := by decide
example : chunkHeader "@@ nonsense" = none := by decide

/-- One hunk as collected by the `parse_diff_advanced` loop. -/
structure RawHunk where
  oldStart : Nat
  newStart : Nat
  added : List String
  removed : List String
  ctx : List String
deriving DecidableEq, Repr

/-- The hunk-collection loop of `parse_diff_advanced`, written as a state
machine over the line list: a `@@` line closes the open hunk and, when its
header parses, opens a new one; inside a hunk, `+`/`-` lines (but not
`+++`/`---`) are added/removed with the marker dropped, `\` lines are
skipped, and all others are context lines with leading spaces stripped. -/
def hunkLoop : List String → Option RawHunk → List RawHunk
  | [], cur =>
    (match cur with
     | some h => [h]
     | none => [])
  | l :: rest, cur =>
    if startsWithS "@@" l then
      let flushed : List RawHunk :=
        match cur with
        | some h => [h]
        | none => []
      match chunkHeader l with
      | some (o, n) => flushed ++ hunkLoop rest (some ⟨o, n, [], [], []⟩)
      | none => flushed ++ hunkLoop rest none
    else
      match cur with
      | none => hunkLoop rest none
      | some h =>
        if startsWithS "+" l && !startsWithS "+++" l then
          hunkLoop rest (some { h with added := h.added ++ [dropS 1 l] })
        else if startsWithS "-" l && !startsWithS "---" l then
          hunkLoop rest (some { h with removed := h.removed ++ [dropS 1 l] })
        else if !startsWithS "\\" l then
          hunkLoop rest (some { h with ctx := h.ctx ++ [lstripSp l] })
        else hunkLoop rest (some h)

/-- Splitting on newline characters, accumulating the current piece in
reverse: the helper behind `diff_content.split('\n')`. -/
def splitNlAux : List Char → List Char → List String
  | [], acc => [acc.reverse.asString]
  | c :: rest, acc =>
    if c = '\n' then acc.reverse.asString :: splitNlAux rest []
    else splitNlAux rest (c :: acc)

/-- Python `diff_content.split('\n')`. -/
def splitLines (content : String) : List String := splitNlAux content.toList []

/-- All hunks of the diff text, in file order. -/
def collectHunks (lines : List String) : List RawHunk := hunkLoop lines none

/-- The body of `parse_diff_advanced` after the file read: each hunk with a
non-empty added or removed set contributes its semantic changes, in hunk
order. -/
def parseDiffText (content : String) (snap : List String) : List Change :=
  (collectHunks (splitLines content)).flatMap fun h =>
    if !h.added.isEmpty || !h.removed.isEmpty then
      split_chunk_into_changes snap h.newStart h.added h.removed h.ctx
    else []

/-- `parse_diff_advanced`: a missing diff file (`none`) yields the empty
list; otherwise the diff text is parsed against the snapshot lines. -/
def parseDiffAdvanced (diffFile : Option String) (snap : List String) : List Change :=
  match diffFile with
  | none => []
  | some content => parseDiffText content snap

/-- A raw (pre-merge) record: exactly one of the two counters is positive. -/
def rawRec (c : Change) : Prop :=
  (0 < c.additions ∧ c.deletions = 0) ∨ (c.additions = 0 ∧ 0 < c.deletions)

instance : DecidablePred rawRec := fun c => by unfold rawRec; infer_instance

/-- A record with zero deletions is never consumed as the second element of
a merge pair, so the greedy scan distributes over such a split point. -/
theorem merge_append : ∀ (pre : List Change) (a : Change) (rest : List Change),
    a.deletions = 0 →
    mergeRelatedChanges (pre ++ a :: rest) =
      mergeRelatedChanges pre ++ mergeRelatedChanges (a :: rest)
  | [], _, _, _ => rfl
  | [p], a, rest, ha => by
    have hc : pairCond p a = false := by simp [pairCond, ha]
    simp [mergeRelatedChanges, hc]
  | p :: q :: pre, a, rest, ha => by
    have h1 := merge_append pre a rest ha
    have h2 := merge_append (q :: pre) a rest ha
    simp only [List.cons_append] at h2
    by_cases h : pairCond p q
    · simp [mergeRelatedChanges, h, h1]
    · simp [mergeRelatedChanges, h, h2]

/-- Elements of `downRange s t` lie in `(t, s]`. -/
theorem downRange_mem : ∀ (s t i : Nat), i ∈ downRange s t → t < i ∧ i ≤ s
  | 0, _, _, h => by simp [downRange] at h
  | s + 1, t, i, h => by
    by_cases ht : t < s + 1
    · simp [downRange, ht] at h
      rcases h with rfl | h
      · omega
      · have := downRange_mem s t i h
        omega
    · simp [downRange, ht] at h

/-- Length of `downRange s t` is `s - t`. -/
theorem downRange_len : ∀ (s t : Nat), (downRange s t).length = s - t
  | 0, t => by simp [downRange]
  | s + 1, t => by
    by_cases ht : t < s + 1
    · simp [downRange, ht, downRange_len s t]
      omega
    · simp [downRange, ht]
      omega

/-- A set start after `febUpd` is at most the current index. -/
theorem febUpd_lt (i : Nat) (opened : Option (List Char)) (cur : Option Nat)
    (hcur : ∀ s, cur = some s → s < i) :
    ∀ s, febUpd i opened cur = some s → s < i + 1 := by
  intro s hs
  cases opened with
  | none => exact Nat.lt_succ_of_lt (hcur s hs)
  | some t =>
    simp only [febUpd] at hs
    split at hs
    · cases hs
      omega
    · exact Nat.lt_succ_of_lt (hcur s hs)

/-- Invariant of the closing-tag handling. -/
theorem febClose_inv (i : Nat) (closed : Option (List Char)) (cur1 : Option Nat)
    (stk1 : List (List Char)) (acc : List (Nat × Nat))
    (hc : ∀ s, cur1 = some s → s < i + 1)
    (ha : ∀ p ∈ acc, p.1 < p.2 ∧ p.2 ≤ i + 1) :
    (∀ s, (febClose i closed cur1 stk1 acc).1 = some s → s < i + 1) ∧
    (∀ p ∈ (febClose i closed cur1 stk1 acc).2.2, p.1 < p.2 ∧ p.2 ≤ i + 1) := by
  cases closed with
  | none => exact ⟨hc, ha⟩
  | some t =>
    cases stk1 with
    | nil => exact ⟨hc, ha⟩
    | cons top stkRest =>
      by_cases htop : top = t
      · subst htop
        by_cases hre : stkRest.isEmpty
        · cases hcur1 : cur1 with
          | none =>
            simp only [febClose, if_pos rfl, hre, if_pos rfl, hcur1]
            exact ⟨by simp, ha⟩
          | some s =>
            simp only [febClose, if_pos rfl, hre, if_pos rfl, hcur1]
            refine ⟨by simp, ?_⟩
            intro p hp
            rcases List.mem_append.mp hp with hp | hp
            · exact ha p hp
            · have hsi := hc s hcur1
              simp at hp
              subst hp
              simp
              omega
        · simp only [febClose, if_pos rfl, hre, if_neg (by simp [hre] : ¬stkRest.isEmpty = true)]
          exact ⟨hc, ha⟩
      · simp only [febClose, if_neg htop]
        exact ⟨hc, ha⟩

/-- Invariant of one boundary-detector step: a set start stays below the
next index, and every emitted range is non-empty with end at most the next
index. -/
theorem febStep_inv (i : Nat) (line : String)
    (st : Option Nat × List (List Char) × List (Nat × Nat))
    (hcur : ∀ s, st.1 = some s → s < i)
    (hacc : ∀ p ∈ st.2.2, p.1 < p.2 ∧ p.2 ≤ i) :
    (∀ s, (febStep i line st).1 = some s → s < i + 1) ∧
    (∀ p ∈ (febStep i line st).2.2, p.1 < p.2 ∧ p.2 ≤ i + 1) := by
  unfold febStep
  exact febClose_inv i _ _ _ st.2.2
    (febUpd_lt i _ st.1 hcur)
    (fun p hp => by have := hacc p hp; omega)

/-- Loop invariant of the boundary detector. -/
theorem febLoop_inv : ∀ (ls : List String) (i : Nat)
    (st : Option Nat × List (List Char) × List (Nat × Nat)),
    (∀ s, st.1 = some s → s < i) →
    (∀ p ∈ st.2.2, p.1 < p.2 ∧ p.2 ≤ i) →
    (∀ s, (febLoop i ls st).1 = some s → s < i + ls.length) ∧
    (∀ p ∈ (febLoop i ls st).2, p.1 < p.2 ∧ p.2 ≤ i + ls.length)
  | [], i, st, hcur, hacc => by
    simp only [febLoop, List.length_nil, Nat.add_zero]
    exact ⟨hcur, hacc⟩
  | l :: rest, i, st, hcur, hacc => by
    have h := febStep_inv i l st hcur hacc
    have h2 := febLoop_inv rest (i + 1) (febStep i l st) h.1 h.2
    have harith : i + 1 + rest.length = i + (l :: rest).length := by
      simp only [List.length_cons]
      omega
    simp only [febLoop]
    rw [← harith]
    exact h2

/-- Post-processing keeps the range invariant, provided the input ranges
satisfy it and a trailing start is below `len`; on a non-empty list the
fallback range `(0, len)` satisfies it as well. -/
theorem febFinish_inv (len : Nat) (linesEmpty : Bool)
    (r : Option Nat × List (Nat × Nat))
    (hlen : linesEmpty = false → 0 < len)
    (hcur : ∀ s, r.1 = some s → s < len)
    (hacc : ∀ p ∈ r.2, p.1 < p.2 ∧ p.2 ≤ len) :
    ∀ p ∈ febFinish len linesEmpty r, p.1 < p.2 ∧ p.2 ≤ len := by
  intro p hp
  unfold febFinish febFallback at hp
  split at hp
  · rename_i hcond
    simp only [Bool.and_eq_true, Bool.not_eq_true'] at hcond
    simp only [List.mem_singleton] at hp
    subst hp
    have := hlen hcond.2
    simp
    omega
  · cases hr : r.1 with
    | none =>
      rw [hr] at hp
      exact hacc p hp
    | some s =>
      rw [hr] at hp
      rcases List.mem_append.mp hp with hp | hp
      · exact hacc p hp
      · have := hcur s hr
        simp at hp
        subst hp
        simp
        omega

/-- Every emitted boundary is a non-empty range inside the line list. -/
theorem boundaries_pos (lines : List String) :
    ∀ p ∈ find_element_boundaries lines, p.1 < p.2 ∧ p.2 ≤ lines.length := by
  have h := febLoop_inv lines 0 (none, [], []) (by simp) (by simp)
  unfold find_element_boundaries
  exact febFinish_inv lines.length lines.isEmpty _
    (by intro he; cases lines with
        | nil => simp at he
        | cons a l => simp)
    (fun s hs => by simpa using h.1 s hs)
    (fun p hp => by simpa using h.2 p hp)

/-- `String.length` of `List.asString` is the list length. -/
theorem length_asString (l : List Char) : (l.asString).length = l.length := rfl

/-- The preview extractor never returns more than `maxLength + 3`
characters: an untruncated preview fits in `maxLength`, a truncated one is
`maxLength` characters plus `"..."`. -/
theorem extract_preview_le (lines : List String) (maxLength : Nat) :
    (extract_preview_text lines maxLength).length ≤ maxLength + 3 := by
  simp only [extract_preview_text]
  split
  · rename_i h
    simp only [length_asString, List.length_append, List.length_take]
    have : ("...".toList).length = 3 := rfl
    omega
  · rename_i h
    simp only [length_asString]
    omega

/-- Bound on the merged preview: the two components glued with the fixed
6- and 11-character markers. -/
theorem mergeChange_preview_len (cur next : Change) :
    (mergeChange cur next).preview.length =
      17 + next.preview.length + cur.preview.length := by
  have h6 : ("[Êóß] " : String).length = 6 := rfl
  have h11 : (" ‚Üí [Êñ∞] " : String).length = 11 := rfl
  simp only [mergeChange, String.length_append, h6, h11]
  omega

/-- The merger keeps previews bounded: from per-record previews of at most
153 characters to merged previews of at most 323. -/
theorem merge_preview_bound : ∀ (cs : List Change),
    (∀ c ∈ cs, c.preview.length ≤ 153) →
    ∀ ch ∈ mergeRelatedChanges cs, ch.preview.length ≤ 323
  | [], _, ch, h => by simp [mergeRelatedChanges] at h
  | [c], hc, ch, h => by
    simp only [mergeRelatedChanges, List.mem_singleton] at h
    rw [h]
    have := hc c (by simp)
    omega
  | c1 :: c2 :: rest, hc, ch, h => by
    by_cases hp : pairCond c1 c2
    · simp only [mergeRelatedChanges, if_pos hp, List.mem_cons] at h
      rcases h with rfl | h
      · have h1 := hc c1 (by simp)
        have h2 := hc c2 (by simp)
        rw [mergeChange_preview_len]
        omega
      · exact merge_preview_bound rest (fun c h' => hc c (by simp [h'])) ch h
    · simp only [mergeRelatedChanges, if_neg hp, List.mem_cons] at h
      rcases h with rfl | h
      · have := hc ch (by simp)
        omega
      · exact merge_preview_bound (c2 :: rest)
          (fun c h' => hc c (List.mem_cons_of_mem c1 h')) ch h

/-- The merger preserves the `line` field values present in its input. -/
theorem merge_line_const : ∀ (cs : List Change) (n : Nat),
    (∀ c ∈ cs, c.line = n) → ∀ ch ∈ mergeRelatedChanges cs, ch.line = n
  | [], _, _, ch, h => by simp [mergeRelatedChanges] at h
  | [c], n, hc, ch, h => by
    simp only [mergeRelatedChanges, List.mem_singleton] at h
    rw [h]
    exact hc c (by simp)
  | c1 :: c2 :: rest, n, hc, ch, h => by
    by_cases hp : pairCond c1 c2
    · simp only [mergeRelatedChanges, if_pos hp, List.mem_cons] at h
      rcases h with rfl | h
      · simpa [mergeChange] using hc c1 (by simp)
      · exact merge_line_const rest n (fun c h' => hc c (by simp [h'])) ch h
    · simp only [mergeRelatedChanges, if_neg hp, List.mem_cons] at h
      rcases h with rfl | h
      · exact hc ch (by simp)
      · exact merge_line_const (c2 :: rest) n
          (fun c h' => hc c (List.mem_cons_of_mem c1 h')) ch h

/-- On raw records the merger preserves both change totals and never
lengthens the list. -/
theorem merge_sums : ∀ (cs : List Change),
    (∀ c ∈ cs, rawRec c) →
    ((mergeRelatedChanges cs).map Change.additions).sum =
      (cs.map Change.additions).sum ∧
    ((mergeRelatedChanges cs).map Change.deletions).sum =
      (cs.map Change.deletions).sum ∧
    (mergeRelatedChanges cs).length ≤ cs.length
  | [], _ => by simp [mergeRelatedChanges]
  | [c], _ => by simp [mergeRelatedChanges]
  | c1 :: c2 :: rest, hr => by
    by_cases hp : pairCond c1 c2
    · have hrest := merge_sums rest (fun c h' => hr c (by simp [h']))
      have hcond := hp
      simp only [pairCond, Bool.and_eq_true, decide_eq_true_eq] at hcond
      have h1 : c1.deletions = 0 := by
        rcases hr c1 (by simp) with ⟨_, h⟩ | ⟨h0, _⟩
        · exact h
        · omega
      have h2 : c2.additions = 0 := by
        rcases hr c2 (by simp) with ⟨_, h⟩ | ⟨h0, _⟩
        · omega
        · exact h0
      simp only [mergeRelatedChanges, if_pos hp, List.map_cons, List.sum_cons,
        List.length_cons, mergeChange]
      refine ⟨?_, ?_, ?_⟩
      · rw [hrest.1]
        omega
      · rw [hrest.2.1]
        omega
      · have := hrest.2.2
        omega
    · have hrest := merge_sums (c2 :: rest)
        (fun c h' => hr c (List.mem_cons_of_mem c1 h'))
      simp only [mergeRelatedChanges, if_neg hp, List.map_cons, List.sum_cons,
        List.length_cons]
      refine ⟨?_, ?_, ?_⟩
      · rw [hrest.1]
        simp
      · rw [hrest.2.1]
        simp
      · have := hrest.2.2
        simp only [List.length_cons] at this ⊢
        omega

/-- Field facts for every record built on one side of a hunk: the line is
the hunk start, the preview is bounded, and the counters record the element
size on exactly one side. -/
theorem chunkSide_fields (snap : List String) (n : Nat) (inTr : Bool)
    (lines : List String) (isDel : Bool) :
    ∀ ch ∈ chunkSideChanges snap n inTr lines isDel,
      ch.line = n ∧ ch.preview.length ≤ 153 ∧
      (if isDel then ch.additions = 0 ∧ 0 < ch.deletions
       else 0 < ch.additions ∧ ch.deletions = 0) := by
  intro ch hch
  unfold chunkSideChanges at hch
  split at hch
  · simp at hch
  · obtain ⟨se, hse, hmk⟩ := List.mem_map.mp hch
    have hb := boundaries_pos lines se hse
    have hlen : 0 < (slice lines se.1 se.2).length := by
      simp only [slice, List.length_take, List.length_drop]
      omega
    subst hmk
    refine ⟨rfl, ?_, ?_⟩
    · simpa using extract_preview_le (slice lines se.1 se.2) 150
    · cases isDel with
      | false => simpa using hlen
      | true => simpa using hlen

/-- Every raw record of a hunk satisfies the one-sided counter invariant. -/
theorem splitChunkRaw_raw (snap : List String) (n : Nat)
    (addedLines removedLines contextLines : List String) :
    ∀ ch ∈ splitChunkRaw snap n addedLines removedLines contextLines, rawRec ch := by
  intro ch hch
  unfold splitChunkRaw at hch
  rcases List.mem_append.mp hch with hch | hch
  · have := (chunkSide_fields snap n _ addedLines false ch hch).2.2
    simp at this
    exact Or.inl ⟨this.1, this.2⟩
  · have := (chunkSide_fields snap n _ removedLines true ch hch).2.2
    simp at this
    exact Or.inr ⟨this.1, this.2⟩

/-- Every raw record of a hunk carries the hunk's start line. -/
theorem splitChunkRaw_line (snap : List String) (n : Nat)
    (addedLines removedLines contextLines : List String) :
    ∀ ch ∈ splitChunkRaw snap n addedLines removedLines contextLines, ch.line = n := by
  intro ch hch
  unfold splitChunkRaw at hch
  rcases List.mem_append.mp hch with hch | hch
  · exact (chunkSide_fields snap n _ addedLines false ch hch).1
  · exact (chunkSide_fields snap n _ removedLines true ch hch).1

/-- Every raw record of a hunk has a preview of at most 153 characters. -/
theorem splitChunkRaw_preview (snap : List String) (n : Nat)
    (addedLines removedLines contextLines : List String) :
    ∀ ch ∈ splitChunkRaw snap n addedLines removedLines contextLines,
      ch.preview.length ≤ 153 := by
  intro ch hch
  unfold splitChunkRaw at hch
  rcases List.mem_append.mp hch with hch | hch
  · exact (chunkSide_fields snap n _ addedLines false ch hch).2.1
  · exact (chunkSide_fields snap n _ removedLines true ch hch).2.1

/-- `findSome?` yields `none` exactly when the function does on every
element. -/
theorem findSome?_none_of_all {α β : Type _} (f : α → Option β) :
    ∀ (l : List α), (∀ x ∈ l, f x = none) → l.findSome? f = none
  | [], _ => rfl
  | a :: l, h => by
    have ha := h a (by simp)
    simp only [List.findSome?, ha]
    exact findSome?_none_of_all f l (fun x hx => h x (by simp [hx]))

/-- A `flatMap` over functions that always return `[]` is empty. -/
theorem flatMap_nil_of_all {α β : Type _} (f : α → List β) :
    ∀ (l : List α), (∀ x ∈ l, f x = []) → l.flatMap f = []
  | [], _ => rfl
  | a :: l, h => by
    simp only [List.flatMap_cons, h a (by simp),
      flatMap_nil_of_all f l (fun x hx => h x (by simp [hx])), List.nil_append]

/-- Without any recognizable hunk header the collection loop finds no
hunks. -/
theorem hunkLoop_none_of_no_header :
    ∀ (ls : List String), (∀ l ∈ ls, chunkHeader l = none) → hunkLoop ls none = []
  | [], _ => rfl
  | l :: ls, h => by
    have hl := h l (by simp)
    have hrec := hunkLoop_none_of_no_header ls (fun x hx => h x (by simp [hx]))
    unfold hunkLoop
    split
    · simp [hl, hrec]
    · rw [hrec]

/-- C1: for every ordered list of raw change records of one hunk, the
merger pairs two records exactly when they are adjacent with the same
`html_element` and `section`, the first with `additions > 0` and the second
with `deletions > 0`; the merged record's preview glues the deletion-side
preview and the addition-side preview with the fixed old/new markers, its
additions, anchor, line and section come from the addition side, its
deletions from the deletion side, and a pair failing the condition is
passed through unpaired. -/
theorem c1_merger_pairs_adjacent (a d : Change) (pre post : List Change)
    (hraw : rawRec a) (hcond : pairCond a d = true) :
    mergeRelatedChanges (pre ++ a :: d :: post) =
      mergeRelatedChanges pre ++ mergeChange a d :: mergeRelatedChanges post ∧
    (mergeChange a d).preview = "[Êóß] " ++ d.preview ++ " ‚Üí [Êñ∞] " ++ a.preview ∧
    (mergeChange a d).additions = a.additions ∧
    (mergeChange a d).deletions = d.deletions ∧
    (mergeChange a d).anchor = a.anchor ∧
    (mergeChange a d).line = a.line ∧
    (mergeChange a d).«section» = a.«section» ∧
    (mergeChange a d).html_element = a.html_element ∧
    (∀ x y rest, pairCond x y = false →
      mergeRelatedChanges (x :: y :: rest) = x :: mergeRelatedChanges (y :: rest)) := by
  have had : a.deletions = 0 := by
    simp only [pairCond, Bool.and_eq_true, decide_eq_true_eq] at hcond
    rcases hraw with ⟨_, h⟩ | ⟨h0, _⟩
    · exact h
    · omega
  refine ⟨?_, rfl, rfl, rfl, rfl, rfl, rfl, rfl, ?_⟩
  · rw [merge_append pre a (d :: post) had]
    simp [mergeRelatedChanges, hcond]
  · intro x y rest h
    simp [mergeRelatedChanges, h]

/-- Witness for C1 at a concrete addition/deletion pair. -/
theorem c1_merger_pairs_adjacent_witness :
    mergeRelatedChanges ([] ++
        Change.mk "s" "t" 3 "NEW" 2 0 "u" "" "list_item" ::
        Change.mk "s" "t2" 3 "OLD" 0 1 "v" "" "list_item" :: []) =
      mergeRelatedChanges [] ++
        mergeChange (Change.mk "s" "t" 3 "NEW" 2 0 "u" "" "list_item")
          (Change.mk "s" "t2" 3 "OLD" 0 1 "v" "" "list_item") ::
        mergeRelatedChanges [] :=
  (c1_merger_pairs_adjacent _ _ [] [] (by decide) (by decide)).1

/-- C2 (code bug): on the input `["<div>", "<p>", "</p>", "</div>"]` the
open range starts at line index 0, yet the later opening tag at index 1
resets the range start — `if not current_start:` treats a start of 0 as
unset — so the emitted boundary is `(1, 4)` instead of the `(0, 4)` that
the stack-was-empty rule of the specification demands. -/
theorem c2_boundary_start_reset_at_zero :
    find_element_boundaries ["<div>", "<p>", "</p>", "</div>"] = [(1, 4)] ∧
    ((1, 4) : Nat × Nat) ≠ (0, 4) := by decide

/-- C3 counterexample: a range containing both `<tr>` and an
admonition-warning marker is categorized `table_row` but labelled with the
fixed Warning label, not the table-row label the claim requires. -/
theorem c3_label_priority_counterexample :
    detect_element_type ["<tr> admonition warning"] = "table_row" ∧
    classify_change_type "table_row" ["<tr> admonition warning"] false =
      "ËøΩÂä†: Warning" ∧
    ("ËøΩÂä†: Warning" : String) ≠ "ËøΩÂä†: „ÉÜ„Éº„Éñ„É´Ë°å" := by decide

/-- C3 amended: the element category follows the priority order (a
`<tr>`/`<td>` range is `table_row` even with admonition markers present),
but the localized label checks the admonition-warning/note markers first:
the fixed Warning label is used whenever the warning marker is present,
and the table-row label only when no admonition marker matched. -/
theorem c3_label_priority_amended (lines : List String) (et : String) (isDel : Bool) :
    (hasSubS "<tr>" (lowerStr (joinSp lines)) = true ∨
        hasSubS "<td>" (lowerStr (joinSp lines)) = true →
      detect_element_type lines = "table_row") ∧
    (hasSubS "admonition warning" (lowerStr (joinSp lines)) = true →
      classify_change_type et lines isDel = classifyPrefixStr isDel ++ "Warning") ∧
    (hasSubS "admonition warning" (lowerStr (joinSp lines)) = false →
      hasSubS "class=\"admonition warning" (lowerStr (joinSp lines)) = false →
      hasSubS "admonition note" (lowerStr (joinSp lines)) = false →
      classify_change_type "table_row" lines isDel =
        classifyPrefixStr isDel ++ "„ÉÜ„Éº„Éñ„É´Ë°å") := by
  refine ⟨?_, ?_, ?_⟩
  · intro h
    unfold detect_element_type
    rcases h with h | h <;> simp [h]
  · intro h
    unfold classify_change_type
    simp [h]
  · intro h1 h2 h3
    unfold classify_change_type
    simp [h1, h2, h3]

/-- Witness for the amended C3 at a concrete warning-marked table row. -/
theorem c3_label_priority_amended_witness :
    classify_change_type "table_row" ["<tr> admonition warning"] false =
      classifyPrefixStr false ++ "Warning" :=
  (c3_label_priority_amended ["<tr> admonition warning"] "table_row" false).2.1
    (by decide)

/-- C4 counterexample: a 200-character text line yields an output record
whose preview has 153 characters (150 plus the ellipsis), exceeding the
claimed 150-character bound. -/
theorem c4_preview_length_counterexample :
    ((split_chunk_into_changes [] 1 [(List.replicate 200 'a').asString] [] []).map
        (fun ch => ch.preview.length)) = [153] ∧ ¬(153 ≤ 150) := by decide

/-- C4 amended: extracted previews are at most 153 characters (150 content
characters plus `"..."`), and every output record of a hunk — merged
records glue two such previews with 17 marker characters — has a preview
of at most 323 characters. -/
theorem c4_preview_length_amended :
    (∀ lines, (extract_preview_text lines).length ≤ 153) ∧
    (∀ snap n addedLines removedLines contextLines,
      ∀ ch ∈ split_chunk_into_changes snap n addedLines removedLines contextLines,
        ch.preview.length ≤ 323) := by
  constructor
  · intro lines
    simpa using extract_preview_le lines 150
  · intro snap n a r c ch hch
    unfold split_chunk_into_changes at hch
    exact merge_preview_bound _ (splitChunkRaw_preview snap n a r c) ch hch

/-- Witness for the amended C4 at a concrete hunk. -/
theorem c4_preview_length_amended_witness :
    (Change.mk "‰∏çÊòé„Å™„Çª„ÇØ„Ç∑„Éß„É≥" "ËøΩÂä†: „Ç≥„É≥„ÉÜ„É≥„ÉÑ" 1 "junk text" 1 0
        "" "" "content").preview.length ≤ 323 :=
  c4_preview_length_amended.2 [] 1 ["junk text"] [] [] _ (by decide)

/-- C5 counterexample: with snapshot `["junk", "<h2 id=\"x\">", "Title"]`
and target line 2, the only snapshot line strictly before line 2 has no
heading, yet the resolver returns the heading found on line 2 itself: the
backward scan starts at the target line, not just before it. -/
theorem c5_section_scan_counterexample :
    get_section_info ["junk", "<h2 id=\"x\">", "Title"] 2 = ("Title", "x") ∧
    headingIdMatch "junk".toList = none ∧
    (("Title", "x") : String × String) ≠ (unknownSection, "") := by decide

/-- C5 amended: the backward scan starts at the target line itself
(snapshot index `n-1`), inspects only lines at or before line `n` within
the 500-line window (in fact at most 499 lines), and returns the fixed
unknown-section sentinel with an empty anchor when no heading with an id
and a non-empty following-line title is found there. -/
theorem c5_section_scan_amended (snap : List String) (n : Nat) :
    (∀ i ∈ scanIdxList n snap.length,
      n - 500 < i ∧ i + 1 ≤ n ∧ i < snap.length) ∧
    (scanIdxList n snap.length).length ≤ 499 ∧
    ((∀ i ∈ scanIdxList n snap.length, sectionAt snap i = none) →
      get_section_info snap n = (unknownSection, "")) := by
  refine ⟨?_, ?_, ?_⟩
  · intro i hi
    unfold scanIdxList at hi
    split at hi
    · simp at hi
    · rename_i hlen
      have hm := downRange_mem _ _ i hi
      have h1 := Nat.le_min.mp hm.2
      have h2 := hm.1
      omega
  · unfold scanIdxList
    split
    · simp
    · rw [downRange_len]
      have := Nat.min_le_left (n - 1) (snap.length - 1)
      omega
  · intro h
    unfold get_section_info
    rw [findSome?_none_of_all _ _ h]

/-- Witness for the amended C5: headingless snapshot yields the sentinel. -/
theorem c5_section_scan_amended_witness :
    get_section_info ["a", "b"] 2 = (unknownSection, "") :=
  (c5_section_scan_amended ["a", "b"] 2).2.2 (by decide)

/-- C6: every raw (pre-merge) record of a hunk has exactly one of
`additions > 0` and `deletions > 0` (addition-side records have
`deletions = 0`, deletion-side records `additions = 0`), and every merged
record emitted by the merger has both counters positive. -/
theorem c6_raw_one_sided_merged_two_sided :
    (∀ snap n addedLines removedLines contextLines,
      ∀ ch ∈ splitChunkRaw snap n addedLines removedLines contextLines, rawRec ch) ∧
    (∀ x y, pairCond x y = true →
      0 < (mergeChange x y).additions ∧ 0 < (mergeChange x y).deletions) := by
  constructor
  · intro snap n a r c
    exact splitChunkRaw_raw snap n a r c
  · intro x y h
    simp only [pairCond, Bool.and_eq_true, decide_eq_true_eq] at h
    exact ⟨h.1.2, h.2⟩

/-- Witness for C6 at a concrete raw record and a concrete merge pair. -/
theorem c6_raw_one_sided_merged_two_sided_witness :
    rawRec (Change.mk "‰∏çÊòé„Å™„Çª„ÇØ„Ç∑„Éß„É≥" "ËøΩÂä†: „Ç≥„É≥„ÉÜ„É≥„ÉÑ" 1 "junk text"
      1 0 "" "" "content") ∧
    (0 < (mergeChange (Change.mk "s" "" 1 "" 5 0 "" "" "x")
        (Change.mk "s" "" 1 "" 0 2 "" "" "x")).additions ∧
     0 < (mergeChange (Change.mk "s" "" 1 "" 5 0 "" "" "x")
        (Change.mk "s" "" 1 "" 0 2 "" "" "x")).deletions) :=
  ⟨c6_raw_one_sided_merged_two_sided.1 [] 1 ["junk text"] [] [] _ (by decide),
   c6_raw_one_sided_merged_two_sided.2 _ _ (by decide)⟩

/-- C7: a missing diff file yields an empty change list, and so does diff
text in which no hunk has a non-empty added or removed line set — in
particular diff text without any parseable hunk header. -/
theorem c7_missing_or_hunkless_input_empty :
    (∀ snap, parseDiffAdvanced none snap = []) ∧
    (∀ content snap,
      (∀ h ∈ collectHunks (splitLines content), h.added = [] ∧ h.removed = []) →
      parseDiffAdvanced (some content) snap = []) ∧
    (∀ content snap,
      (∀ l ∈ splitLines content, chunkHeader l = none) →
      parseDiffAdvanced (some content) snap = []) := by
  refine ⟨fun _ => rfl, ?_, ?_⟩
  · intro content snap h
    show parseDiffText content snap = []
    unfold parseDiffText
    apply flatMap_nil_of_all
    intro x hx
    have := h x hx
    simp [this.1, this.2]
  · intro content snap h
    show parseDiffText content snap = []
    unfold parseDiffText collectHunks
    rw [hunkLoop_none_of_no_header _ h]
    rfl

/-- Witness for C7 on concrete hunk-free diff text. -/
theorem c7_missing_or_hunkless_input_empty_witness :
    parseDiffAdvanced (some "hello\nworld") ["snap"] = [] :=
  c7_missing_or_hunkless_input_empty.2.2 "hello\nworld" ["snap"] (by decide)

/-- C8: the summarizer is deterministic — equal diff text and equal
snapshot text give equal change lists, hence equal output under any
serialization. -/
theorem c8_deterministic (d1 d2 : Option String) (s1 s2 : List String)
    (hd : d1 = d2) (hs : s1 = s2) :
    parseDiffAdvanced d1 s1 = parseDiffAdvanced d2 s2 ∧
    ∀ serializeOutput : List Change → String,
      serializeOutput (parseDiffAdvanced d1 s1) =
        serializeOutput (parseDiffAdvanced d2 s2) := by
  subst hd hs
  exact ⟨rfl, fun _ => rfl⟩

/-- Witness for C8 on a concrete run. -/
theorem c8_deterministic_witness :
    parseDiffAdvanced (some "@@ -1 +1 @@\n+<p>x</p>") ["s"] =
      parseDiffAdvanced (some "@@ -1 +1 @@\n+<p>x</p>") ["s"] :=
  (c8_deterministic _ _ _ _ rfl rfl).1

/-- C9 counterexample: on a record pair that is not raw (the second has
both counters positive), merging loses the second record's additions: the
output additions sum is 5 while the input sum is 12. -/
theorem c9_merge_sum_counterexample :
    ((mergeRelatedChanges [Change.mk "s" "" 1 "" 5 0 "" "" "x",
        Change.mk "s" "" 1 "" 7 2 "" "" "x"]).map Change.additions).sum = 5 ∧
    (([Change.mk "s" "" 1 "" 5 0 "" "" "x",
        Change.mk "s" "" 1 "" 7 2 "" "" "x"]).map Change.additions).sum = 12 ∧
    (5 : Nat) ≠ 12 := by decide

/-- C9 amended: for every list of raw records (exactly one of
`additions > 0` / `deletions > 0` per record, as the merger receives them)
the merger preserves the additions sum and the deletions sum, and never
lengthens the list. -/
theorem c9_merge_sums_amended (cs : List Change) (hraw : ∀ c ∈ cs, rawRec c) :
    ((mergeRelatedChanges cs).map Change.additions).sum =
      (cs.map Change.additions).sum ∧
    ((mergeRelatedChanges cs).map Change.deletions).sum =
      (cs.map Change.deletions).sum ∧
    (mergeRelatedChanges cs).length ≤ cs.length :=
  merge_sums cs hraw

/-- Witness for the amended C9 at a concrete raw pair. -/
theorem c9_merge_sums_amended_witness :
    ((mergeRelatedChanges [Change.mk "s" "" 1 "" 5 0 "" "" "x",
        Change.mk "s" "" 1 "" 0 2 "" "" "x"]).map Change.additions).sum =
      (([Change.mk "s" "" 1 "" 5 0 "" "" "x",
        Change.mk "s" "" 1 "" 0 2 "" "" "x"]).map Change.additions).sum :=
  (c9_merge_sums_amended _ (by decide)).1

/-- C10: every change record produced for a hunk — addition-side,
deletion-side, and merged alike — carries the hunk's new-file start line,
and every record of a full parse carries the start line of the hunk that
produced it. -/
theorem c10_record_line_is_hunk_start :
    (∀ snap n addedLines removedLines contextLines,
      ∀ ch ∈ split_chunk_into_changes snap n addedLines removedLines contextLines,
        ch.line = n) ∧
    (∀ content snap, ∀ ch ∈ parseDiffText content snap,
      ∃ h ∈ collectHunks (splitLines content), ch.line = h.newStart) := by
  constructor
  · intro snap n a r c ch hch
    unfold split_chunk_into_changes at hch
    exact merge_line_const _ n (splitChunkRaw_line snap n a r c) ch hch
  · intro content snap ch hch
    unfold parseDiffText at hch
    obtain ⟨h, hmem, hch2⟩ := List.mem_flatMap.mp hch
    refine ⟨h, hmem, ?_⟩
    split at hch2
    · unfold split_chunk_into_changes at hch2
      exact merge_line_const _ _
        (splitChunkRaw_line snap h.newStart h.added h.removed h.ctx) ch hch2
    · simp at hch2

/-- Witness for C10 at a concrete hunk. -/
theorem c10_record_line_is_hunk_start_witness :
    (Change.mk "‰∏çÊòé„Å™„Çª„ÇØ„Ç∑„Éß„É≥" "ËøΩÂä†: „Ç≥„É≥„ÉÜ„É≥„ÉÑ" 1 "junk text" 1 0
        "" "" "content").line = 1 :=
  c10_record_line_is_hunk_start.1 [] 1 ["junk text"] [] [] _ (by decide)

end DiffSummary
